import Mathlib

/-!
Verification development for the term-grid layout library (src/src/lib.rs).

The Rust source is shallowly embedded below: machine integers (usize)
become Nat, fallible operations (Rust panics: division by zero, index out
of bounds) become Option with the panic modelled as `none`, and the
stateful builder (Grid::new / Grid::add) becomes explicit state passing,
with `Grid.build` describing every grid reachable through the public API.
-/

set_option maxHeartbeats 1000000

namespace TermGrid

/-- Alignment of a cell's contents (enum Alignment in the source). -/
inductive Alignment where
  | Left
  | Right
deriving DecidableEq

/-- A Cell: contents, pre-computed display width, and alignment
(struct Cell in the source; the width field is public and
caller-supplied, so it is arbitrary data here). -/
structure Cell where
  contents : String
  width : Nat
  alignment : Alignment
deriving DecidableEq

instance : Inhabited Cell := ⟨⟨"", 0, Alignment.Left⟩⟩

/-- Direction cells are written in (enum Direction in the source). -/
inductive Direction where
  | LeftToRight
  | TopToBottom
deriving DecidableEq

/-- Display width of a string.  The crate delegates string measurement to
the external unicode-width collaborator (out of scope per the spec); for
the ASCII strings appearing in this development the Unicode display width
coincides with the character count, which is what this stand-in computes.
The layout algorithm only ever uses the result as an opaque number. -/
def displayWidthStr (s : String) : Nat := s.length

/-- The text between each pair of columns (enum Filling in the source). -/
inductive Filling where
  | Spaces (w : Nat)
  | Text (t : String)
deriving DecidableEq

/-- Filling::width from the source. -/
def Filling.width : Filling → Nat
  | .Spaces w => w
  | .Text t => displayWidthStr t

/-- struct GridOptions from the source. -/
structure GridOptions where
  direction : Direction
  filling : Filling
deriving DecidableEq

/-- struct Dimensions from the source. -/
structure Dimensions where
  num_lines : Nat
  widths : List Nat
deriving DecidableEq

/-- Dimensions::total_width from the source. -/
def Dimensions.total_width (d : Dimensions) (separator_width : Nat) : Nat :=
  if d.widths.isEmpty then 0
  else d.widths.sum + separator_width * (d.widths.length - 1)

/-- struct Grid from the source: the options, the cell sequence, and the
four incrementally maintained aggregates. -/
structure Grid where
  options : GridOptions
  cells : List Cell
  widest_cell_width : Nat
  narrowest_cell_width : Nat
  width_sum : Nat
  cell_count : Nat
deriving DecidableEq

/-- usize::MAX on the 64-bit targets the crate runs on; Grid::new seeds
narrowest_cell_width with it.  Cell widths are usize values and therefore
never exceed it.  (Nat stands in for usize throughout; overflow of
width_sum is not modelled, as it cannot occur for realistic cell data.) -/
def USizeMax : Nat := 2 ^ 64 - 1

/-- Grid::new from the source. -/
def Grid.new (options : GridOptions) : Grid :=
  { options := options, cells := [],
    widest_cell_width := 0, narrowest_cell_width := USizeMax,
    width_sum := 0, cell_count := 0 }

/-- Grid::add from the source: update the four aggregates, push the cell. -/
def Grid.add (g : Grid) (cell : Cell) : Grid :=
  { g with
    widest_cell_width :=
      if cell.width > g.widest_cell_width then cell.width else g.widest_cell_width,
    narrowest_cell_width :=
      if cell.width < g.narrowest_cell_width then cell.width else g.narrowest_cell_width,
    width_sum := g.width_sum + cell.width,
    cell_count := g.cell_count + 1,
    cells := g.cells ++ [cell] }

/-- Every grid reachable through the public API: Grid::new followed by a
finite sequence of Grid::add calls (Grid's fields are private in the
source, and add is the only mutator). -/
def Grid.build (options : GridOptions) (cs : List Cell) : Grid :=
  cs.foldl Grid.add (Grid.new options)

/-- The direction match inside Grid::column_widths: the column that the
cell at sequence index i is assigned to. -/
def colIndex (dir : Direction) (num_lines num_columns i : Nat) : Nat :=
  match dir with
  | .LeftToRight => i % num_columns
  | .TopToBottom => i / num_lines

/-- The loop of Grid::column_widths: for each enumerated cell, raise the
width of its column to the cell's width.  The source reads and writes
widths[index]; the indices produced by colIndex stay in bounds for every
call the crate makes, so the in-range getD/set pair is an exact
transcription. -/
def columnWidthsLoop (dir : Direction) (num_lines num_columns : Nat) :
    List Cell → Nat → List Nat → List Nat
  | [], _, widths => widths
  | c :: cs, i, widths =>
    let j := colIndex dir num_lines num_columns i
    columnWidthsLoop dir num_lines num_columns cs (i + 1)
      (widths.set j (max (widths.getD j 0) c.width))

/-- Grid::column_widths from the source. -/
def Grid.column_widths (g : Grid) (num_lines num_columns : Nat) : Dimensions :=
  { num_lines := num_lines,
    widths := columnWidthsLoop g.options.direction num_lines num_columns
      g.cells 0 (List.replicate num_columns 0) }

/-- The num_lines computation of Grid::columns_dimensions, transcribed
verbatim: cells.len() / num_columns, plus one when the division leaves a
remainder.  This is the ceiling of cells.len() / num_columns. -/
def ceilDivNat (a b : Nat) : Nat :=
  a / b + (if a % b ≠ 0 then 1 else 0)

/-- Grid::columns_dimensions for a nonzero column count. -/
def Grid.columnsDimensionsPos (g : Grid) (num_columns : Nat) : Dimensions :=
  g.column_widths (ceilDivNat g.cells.length num_columns) num_columns

/-- Grid::columns_dimensions from the source.  With num_columns = 0 the
source divides cells.len() by zero, which panics in Rust; the panic is
modelled as none. -/
def Grid.columns_dimensions (g : Grid) (num_columns : Nat) : Option Dimensions :=
  if num_columns = 0 then none
  else some (g.columnsDimensionsPos num_columns)

/-- Grid::theoretical_max_column_count from the source.  When both the
narrowest cell width and the filling width are zero the source divides by
zero, which panics in Rust; the panic is modelled as none.  The
subtraction maximum_width - widest_cell_width cannot underflow at the one
call site, which has already checked widest_cell_width <= maximum_width. -/
def Grid.theoretical_max_column_count (g : Grid) (maximum_width : Nat) : Option Nat :=
  let divisor := g.narrowest_cell_width + g.options.filling.width
  if divisor = 0 then none
  else some (min ((maximum_width - g.widest_cell_width) / divisor + 1) g.cell_count)

/-- The descending scan of Grid::width_dimensions: try num_columns from
the theoretical maximum down to 2, returning the first candidate whose
column widths sum to strictly less than the width budget left after the
separators; fall back to the single-column layout.  (In the source this
is the for loop over (2..=max_column_count).rev() followed by
columns_dimensions(1).) -/
def Grid.scanColumns (g : Grid) (maximum_width : Nat) : Nat → Dimensions
  | 0 => g.columnsDimensionsPos 1
  | 1 => g.columnsDimensionsPos 1
  | num_columns + 2 =>
    let potential_dimensions := g.columnsDimensionsPos (num_columns + 2)
    let total_separator_width := (num_columns + 1) * g.options.filling.width
    let adjusted_width := maximum_width - total_separator_width
    if potential_dimensions.widths.sum < adjusted_width then potential_dimensions
    else g.scanColumns maximum_width (num_columns + 1)

/-- Grid::width_dimensions from the source.  The outer Option models the
Rust panics (division by zero in theoretical_max_column_count, indexing
cells[0] when cell_count is out of sync with the vector); the inner
Option is the function's own Option return value. -/
def Grid.width_dimensions (g : Grid) (maximum_width : Nat) : Option (Option Dimensions) :=
  if g.widest_cell_width > maximum_width then some none
  else if g.cell_count = 0 then some (some ⟨0, []⟩)
  else if g.cell_count = 1 then
    match g.cells.head? with
    | some the_cell => some (some ⟨1, [the_cell.width]⟩)
    | none => none
  else if g.options.filling.width > maximum_width then some none
  else
    match g.theoretical_max_column_count maximum_width with
    | none => none
    | some max_column_count => some (some (g.scanColumns maximum_width max_column_count))

/-- struct Display from the source (the borrowed grid is embedded by
value). -/
structure Display where
  grid : Grid
  dimensions : Dimensions
deriving DecidableEq

/-- Grid::fit_into_width from the source.  The outer Option models the
panic, the inner one the function's Option return value. -/
def Grid.fit_into_width (g : Grid) (maximum_width : Nat) : Option (Option Display) :=
  (g.width_dimensions maximum_width).map
    (Option.map (fun dims => { grid := g, dimensions := dims }))

/-- Grid::fit_into_columns from the source; none models the
division-by-zero panic of columns_dimensions(0). -/
def Grid.fit_into_columns (g : Grid) (num_columns : Nat) : Option Display :=
  (g.columns_dimensions num_columns).map
    (fun dims => { grid := g, dimensions := dims })

/-- Display::width from the source. -/
def Display.width (disp : Display) : Nat :=
  disp.dimensions.total_width disp.grid.options.filling.width

/-- Display::row_count from the source. -/
def Display.row_count (disp : Display) : Nat :=
  disp.dimensions.num_lines

/-- Display::is_complete from the source. -/
def Display.is_complete (disp : Display) : Bool :=
  disp.dimensions.widths.all (fun x => x > 0)

/-- The spaces helper from the source. -/
def spacesStr (length : Nat) : String :=
  String.join (List.replicate length " ")

/-- pad_string from the source. -/
def pad_string (string : String) (padding : Nat) (alignment : Alignment) : String :=
  match alignment with
  | .Left => string ++ spacesStr padding
  | .Right => spacesStr padding ++ string

/-- The direction match at the top of the render loop in
impl fmt::Display for Display: the sequence index of the cell occupying
row y, column x. -/
def slotIndex (dir : Direction) (num_lines num_columns y x : Nat) : Nat :=
  match dir with
  | .LeftToRight => y * num_columns + x
  | .TopToBottom => y + num_lines * x

/-- Sequential string concatenation, standing in for the successive
write! calls of the renderer. -/
def concatStrings : List String → String
  | [] => ""
  | s :: rest => s ++ concatStrings rest

/-- The body of the render loop for a slot that holds a real cell
(sequence index num below the cell count): the padded contents, followed
by the filling when x is not the last column.  Transcribed from
impl fmt::Display for Display. -/
def renderCellSlot (g : Grid) (d : Dimensions) (num x : Nat) : String :=
  let cell := g.cells.getD num default
  if x = d.widths.length - 1 then
    match cell.alignment with
    | .Left => cell.contents
    | .Right => pad_string cell.contents (d.widths.getD x 0 - cell.width) .Right
  else
    match g.options.filling, cell.alignment with
    | .Spaces n, .Left =>
      pad_string cell.contents (d.widths.getD x 0 - cell.width + n) .Left
    | .Spaces n, .Right =>
      pad_string cell.contents (d.widths.getD x 0 - cell.width) .Right ++ spacesStr n
    | .Text t, a =>
      pad_string cell.contents (d.widths.getD x 0 - cell.width) a ++ t

/-- One slot of the render loop: compute the cell index for (y, x); if it
is at least the number of cells, the source issues continue and writes
nothing. -/
def renderSlot (g : Grid) (d : Dimensions) (y x : Nat) : String :=
  let num := slotIndex g.options.direction d.num_lines d.widths.length y x
  if num ≥ g.cells.length then ""
  else renderCellSlot g d num x

/-- One rendered line: the concatenated slot outputs for row y. -/
def renderLine (g : Grid) (d : Dimensions) (y : Nat) : String :=
  concatStrings ((List.range d.widths.length).map (renderSlot g d y))

/-- All rendered lines, in order. -/
def renderLines (g : Grid) (d : Dimensions) : List String :=
  (List.range d.num_lines).map (fun y => renderLine g d y)

/-- The full rendering of impl fmt::Display for Display: every line
followed by the line break that writeln! appends. -/
def Display.render (disp : Display) : String :=
  concatStrings ((renderLines disp.grid disp.dimensions).map (fun l => l ++ "\n"))

/-- The separator text between adjacent columns, as rendered. -/
def fillingStr : Filling → String
  | .Spaces n => spacesStr n
  | .Text t => t

/-- Whether s ends with t, computed on the character lists. -/
def strEndsWith (s t : String) : Bool :=
  s.data.drop (s.data.length - t.data.length) == t.data

/-- Formalisation of the specification sentence behind claim C2, in the
spec's own words (not of the source): no rendered line ends with a
trailing separator.  This definition follows the spec so that the claim
can be compared with what the transcribed renderer actually produces. -/
def noTrailingSeparator (g : Grid) (d : Dimensions) : Bool :=
  (renderLines g d).all
    (fun l => fillingStr g.options.filling == "" ||
              !(strEndsWith l (fillingStr g.options.filling)))

/-! ### Arithmetic and fold helpers -/

lemma if_gt_eq_max (a b : Nat) : (if b > a then b else a) = max a b := by
  rw [Nat.max_def]; split_ifs <;> omega

lemma if_lt_eq_min (a b : Nat) : (if b < a then b else a) = min a b := by
  rw [Nat.min_def]; split_ifs <;> omega

lemma le_foldl_max (l : List Nat) (a : Nat) : a ≤ l.foldl max a := by
  induction l generalizing a with
  | nil => exact Nat.le_refl a
  | cons x xs ih => exact Nat.le_trans (Nat.le_max_left a x) (ih (max a x))

lemma mem_le_foldl_max (l : List Nat) (a : Nat) : ∀ x ∈ l, x ≤ l.foldl max a := by
  induction l generalizing a with
  | nil => intro x hx; cases hx
  | cons y ys ih =>
    intro x hx
    rcases List.mem_cons.mp hx with rfl | hx
    · exact Nat.le_trans (Nat.le_max_right a x) (le_foldl_max ys (max a x))
    · exact ih (max a y) x hx

lemma foldl_max_mem (l : List Nat) (a : Nat) :
    l.foldl max a = a ∨ l.foldl max a ∈ l := by
  induction l generalizing a with
  | nil => exact Or.inl rfl
  | cons y ys ih =>
    rcases ih (max a y) with h | h
    · rw [List.foldl_cons, h]
      rcases Nat.le_total a y with h' | h'
      · exact Or.inr (by simp [Nat.max_eq_right h'])
      · exact Or.inl (Nat.max_eq_left h')
    · exact Or.inr (List.mem_cons_of_mem y h)

lemma foldl_min_le (l : List Nat) (a : Nat) : l.foldl min a ≤ a := by
  induction l generalizing a with
  | nil => exact Nat.le_refl a
  | cons x xs ih => exact Nat.le_trans (ih (min a x)) (Nat.min_le_left a x)

lemma foldl_min_le_mem (l : List Nat) (a : Nat) : ∀ x ∈ l, l.foldl min a ≤ x := by
  induction l generalizing a with
  | nil => intro x hx; cases hx
  | cons y ys ih =>
    intro x hx
    rcases List.mem_cons.mp hx with rfl | hx
    · exact Nat.le_trans (foldl_min_le ys (min a x)) (Nat.min_le_right a x)
    · exact ih (min a y) x hx

lemma foldl_min_mem (l : List Nat) (a : Nat) :
    l.foldl min a = a ∨ l.foldl min a ∈ l := by
  induction l generalizing a with
  | nil => exact Or.inl rfl
  | cons y ys ih =>
    rcases ih (min a y) with h | h
    · rw [List.foldl_cons, h]
      rcases Nat.le_total a y with h' | h'
      · exact Or.inl (Nat.min_eq_left h')
      · exact Or.inr (by simp [Nat.min_eq_right h'])
    · exact Or.inr (List.mem_cons_of_mem y h)

/-! ### The builder: grids reachable through Grid::new and Grid::add -/

lemma foldl_add_options (cs : List Cell) (g : Grid) :
    (cs.foldl Grid.add g).options = g.options := by
  induction cs generalizing g with
  | nil => rfl
  | cons c cs ih => exact ih (g.add c)

lemma foldl_add_cells (cs : List Cell) (g : Grid) :
    (cs.foldl Grid.add g).cells = g.cells ++ cs := by
  induction cs generalizing g with
  | nil => simp
  | cons c cs ih =>
    rw [List.foldl_cons, ih (g.add c)]
    simp [Grid.add]

lemma foldl_add_cell_count (cs : List Cell) (g : Grid) :
    (cs.foldl Grid.add g).cell_count = g.cell_count + cs.length := by
  induction cs generalizing g with
  | nil => rfl
  | cons c cs ih =>
    rw [List.foldl_cons, ih (g.add c)]
    simp [Grid.add]
    omega

lemma foldl_add_width_sum (cs : List Cell) (g : Grid) :
    (cs.foldl Grid.add g).width_sum = g.width_sum + (cs.map Cell.width).sum := by
  induction cs generalizing g with
  | nil => simp
  | cons c cs ih =>
    rw [List.foldl_cons, ih (g.add c)]
    simp [Grid.add]
    omega

lemma foldl_add_widest (cs : List Cell) (g : Grid) :
    (cs.foldl Grid.add g).widest_cell_width =
      (cs.map Cell.width).foldl max g.widest_cell_width := by
  induction cs generalizing g with
  | nil => rfl
  | cons c cs ih =>
    rw [List.foldl_cons, ih (g.add c)]
    simp [Grid.add, if_gt_eq_max]

lemma foldl_add_narrowest (cs : List Cell) (g : Grid) :
    (cs.foldl Grid.add g).narrowest_cell_width =
      (cs.map Cell.width).foldl min g.narrowest_cell_width := by
  induction cs generalizing g with
  | nil => rfl
  | cons c cs ih =>
    rw [List.foldl_cons, ih (g.add c)]
    simp [Grid.add, if_lt_eq_min]

lemma build_options (o : GridOptions) (cs : List Cell) : (Grid.build o cs).options = o :=
  foldl_add_options cs (Grid.new o)

lemma build_cells (o : GridOptions) (cs : List Cell) : (Grid.build o cs).cells = cs := by
  simpa [Grid.new] using foldl_add_cells cs (Grid.new o)

lemma build_cell_count (o : GridOptions) (cs : List Cell) :
    (Grid.build o cs).cell_count = cs.length := by
  simpa [Grid.new] using foldl_add_cell_count cs (Grid.new o)

lemma build_width_sum (o : GridOptions) (cs : List Cell) :
    (Grid.build o cs).width_sum = (cs.map Cell.width).sum := by
  simpa [Grid.new] using foldl_add_width_sum cs (Grid.new o)

lemma build_widest (o : GridOptions) (cs : List Cell) :
    (Grid.build o cs).widest_cell_width = (cs.map Cell.width).foldl max 0 := by
  simpa [Grid.new] using foldl_add_widest cs (Grid.new o)

lemma build_narrowest (o : GridOptions) (cs : List Cell) :
    (Grid.build o cs).narrowest_cell_width = (cs.map Cell.width).foldl min USizeMax := by
  simpa [Grid.new] using foldl_add_narrowest cs (Grid.new o)

lemma width_le_widest {o : GridOptions} {cs : List Cell} {c : Cell} (hc : c ∈ cs) :
    c.width ≤ (Grid.build o cs).widest_cell_width := by
  rw [build_widest]
  exact mem_le_foldl_max _ 0 c.width (List.mem_map_of_mem Cell.width hc)

lemma narrowest_le_width {o : GridOptions} {cs : List Cell} {c : Cell} (hc : c ∈ cs) :
    (Grid.build o cs).narrowest_cell_width ≤ c.width := by
  rw [build_narrowest]
  exact foldl_min_le_mem _ USizeMax c.width (List.mem_map_of_mem Cell.width hc)

lemma widest_mem {o : GridOptions} {cs : List Cell} (hne : cs ≠ []) :
    (Grid.build o cs).widest_cell_width ∈ cs.map Cell.width := by
  rw [build_widest]
  rcases foldl_max_mem (cs.map Cell.width) 0 with h | h
  · rcases cs with _ | ⟨c, cs⟩
    · exact absurd rfl hne
    · have hle : c.width ≤ (List.map Cell.width (c :: cs)).foldl max 0 :=
        mem_le_foldl_max _ 0 c.width (by simp)
      rw [h] at hle
      have : c.width = 0 := Nat.le_zero.mp hle
      rw [h]
      simp [this.symm]
  · exact h

lemma narrowest_mem {o : GridOptions} {cs : List Cell} (hne : cs ≠ [])
    (hb : ∀ c ∈ cs, c.width ≤ USizeMax) :
    (Grid.build o cs).narrowest_cell_width ∈ cs.map Cell.width := by
  rw [build_narrowest]
  rcases foldl_min_mem (cs.map Cell.width) USizeMax with h | h
  · rcases cs with _ | ⟨c, cs⟩
    · exact absurd rfl hne
    · have hle : (List.map Cell.width (c :: cs)).foldl min USizeMax ≤ c.width :=
        foldl_min_le_mem _ USizeMax c.width (by simp)
    -- fold = USizeMax together with fold ≤ c.width ≤ USizeMax forces c.width = USizeMax
      rw [h] at hle
      have hc : c.width = USizeMax :=
        Nat.le_antisymm (hb c (by simp)) hle
      rw [h, ← hc]
      simp
  · exact h

/-! ### List indexing helpers -/

lemma getD_cons_succ (a : Nat) (l : List Nat) (j d : Nat) :
    (a :: l).getD (j + 1) d = l.getD j d := rfl

lemma getD_set_self : ∀ (l : List Nat) (j v d : Nat), j < l.length →
    (l.set j v).getD j d = v
  | [], j, v, d, h => absurd h (by simp)
  | _ :: _, 0, _, _, _ => rfl
  | a :: l, j + 1, v, d, h => getD_set_self l j v d (by simpa using h)

lemma getD_set_ne : ∀ (l : List Nat) (i j v d : Nat), i ≠ j →
    (l.set i v).getD j d = l.getD j d
  | [], _, _, _, _, _ => rfl
  | _ :: _, 0, 0, _, _, h => absurd rfl h
  | _ :: _, 0, _ + 1, _, _, _ => rfl
  | _ :: _, _ + 1, 0, _, _, _ => rfl
  | _ :: l, i + 1, j + 1, v, d, h =>
    getD_set_ne l i j v d (fun he => h (by rw [he]))

lemma getD_replicate_zero : ∀ (n j : Nat), (List.replicate n (0 : Nat)).getD j 0 = 0
  | 0, _ => rfl
  | _ + 1, 0 => rfl
  | n + 1, j + 1 => getD_replicate_zero n j

lemma getD_eq_get : ∀ (l : List Nat) (j : Nat) (h : j < l.length),
    l.getD j 0 = l.get ⟨j, h⟩
  | [], _, h => absurd h (by simp)
  | _ :: _, 0, _ => rfl
  | _ :: l, j + 1, h => getD_eq_get l j (by simpa using h)

/-! ### Characterisation of the column_widths loop -/

/-- The maximum width (0 when there is none) among the cells of cs,
enumerated from index i, that colIndex assigns to column j.  This is the
quantity the specification describes as the column width: the running
maximum of the widths of the cells mapped to that column. -/
def colMaxFrom (dir : Direction) (num_lines num_columns : Nat) :
    List Cell → Nat → Nat → Nat
  | [], _, _ => 0
  | c :: cs, i, j =>
    max (if colIndex dir num_lines num_columns i = j then c.width else 0)
        (colMaxFrom dir num_lines num_columns cs (i + 1) j)

lemma columnWidthsLoop_length (dir : Direction) (nl nc : Nat) :
    ∀ (cs : List Cell) (i : Nat) (w : List Nat),
      (columnWidthsLoop dir nl nc cs i w).length = w.length
  | [], _, _ => rfl
  | c :: cs, i, w => by
    rw [columnWidthsLoop, columnWidthsLoop_length dir nl nc cs (i + 1)]
    exact List.length_set w _ _

lemma columnWidthsLoop_getD (dir : Direction) (nl nc : Nat) :
    ∀ (cs : List Cell) (i : Nat) (w : List Nat) (j : Nat), j < w.length →
      (columnWidthsLoop dir nl nc cs i w).getD j 0 =
        max (w.getD j 0) (colMaxFrom dir nl nc cs i j)
  | [], i, w, j, _ => by simp [columnWidthsLoop, colMaxFrom]
  | c :: cs, i, w, j, hj => by
    rw [columnWidthsLoop, colMaxFrom]
    have hlen : j < (w.set (colIndex dir nl nc i) (max (w.getD (colIndex dir nl nc i) 0) c.width)).length := by
      rw [List.length_set]; exact hj
    rw [columnWidthsLoop_getD dir nl nc cs (i + 1) _ j hlen]
    by_cases hc : colIndex dir nl nc i = j
    · rw [hc, getD_set_self w j _ 0 hj]
      rw [if_pos rfl, Nat.max_assoc]
    · rw [getD_set_ne w _ j _ 0 hc, if_neg hc]
      simp

lemma columnsDimensionsPos_num_lines (g : Grid) (nc : Nat) :
    (g.columnsDimensionsPos nc).num_lines = ceilDivNat g.cells.length nc := rfl

lemma columnsDimensionsPos_length (g : Grid) (nc : Nat) :
    (g.columnsDimensionsPos nc).widths.length = nc := by
  show (columnWidthsLoop _ _ _ _ _ _).length = nc
  rw [columnWidthsLoop_length]
  exact List.length_replicate nc 0

lemma columnsDimensionsPos_getD (g : Grid) (nc j : Nat) (hj : j < nc) :
    (g.columnsDimensionsPos nc).widths.getD j 0 =
      colMaxFrom g.options.direction (ceilDivNat g.cells.length nc) nc g.cells 0 j := by
  show (columnWidthsLoop _ _ _ _ _ _).getD j 0 = _
  rw [columnWidthsLoop_getD _ _ _ _ _ _ j (by simpa using hj)]
  rw [getD_replicate_zero]
  simp

lemma columnsDimensionsPos_widths (g : Grid) (nc : Nat) :
    (g.columnsDimensionsPos nc).widths =
      (List.range nc).map (fun j =>
        colMaxFrom g.options.direction (ceilDivNat g.cells.length nc) nc g.cells 0 j) := by
  apply List.ext_get
  · rw [columnsDimensionsPos_length]
    simp
  · intro j h1 h2
    rw [← getD_eq_get _ j h1]
    have hj : j < nc := by
      have := columnsDimensionsPos_length g nc
      omega
    rw [columnsDimensionsPos_getD g nc j hj]
    rw [List.get_map]
    congr 1
    exact (List.get_range _ _).symm

/-! ### Properties of colMaxFrom -/

lemma colMaxFrom_ge (dir : Direction) (nl nc : Nat) :
    ∀ (cs : List Cell) (k i j : Nat), i < cs.length →
      colIndex dir nl nc (k + i) = j →
      (cs.getD i default).width ≤ colMaxFrom dir nl nc cs k j
  | [], _, i, _, hi, _ => absurd hi (by simp)
  | c :: cs, k, 0, j, _, hc => by
    rw [colMaxFrom]
    have : colIndex dir nl nc k = j := by simpa using hc
    rw [if_pos this]
    exact Nat.le_max_left _ _
  | c :: cs, k, i + 1, j, hi, hc => by
    rw [colMaxFrom]
    refine Nat.le_trans (colMaxFrom_ge dir nl nc cs (k + 1) i j (by simpa using hi) ?_)
      (Nat.le_max_right _ _)
    rw [← hc]
    congr 1
    omega

lemma colMaxFrom_le (dir : Direction) (nl nc : Nat) (ub : Nat) :
    ∀ (cs : List Cell) (k j : Nat), (∀ c ∈ cs, c.width ≤ ub) →
      colMaxFrom dir nl nc cs k j ≤ ub
  | [], _, _, _ => Nat.zero_le ub
  | c :: cs, k, j, h => by
    rw [colMaxFrom]
    apply Nat.max_le.mpr
    constructor
    · split
      · exact h c (by simp)
      · exact Nat.zero_le ub
    · exact colMaxFrom_le dir nl nc ub cs (k + 1) j (fun c' hc' => h c' (by simp [hc']))

lemma colMaxFrom_eq_zero (dir : Direction) (nl nc : Nat) :
    ∀ (cs : List Cell) (k j : Nat), (∀ i, i < cs.length → colIndex dir nl nc (k + i) ≠ j) →
      colMaxFrom dir nl nc cs k j = 0
  | [], _, _, _ => rfl
  | c :: cs, k, j, h => by
    rw [colMaxFrom]
    rw [if_neg (by simpa using h 0 (by simp))]
    rw [colMaxFrom_eq_zero dir nl nc cs (k + 1) j
      (fun i hi => by
        have := h (i + 1) (by simpa using hi)
        simpa [Nat.add_assoc, Nat.add_comm 1 i] using this)]
    rfl

/-! ### Arithmetic of the ceiling division used for num_lines -/

lemma ceilDivNat_le_iff {b : Nat} (hb : 0 < b) (a k : Nat) :
    ceilDivNat a b ≤ k ↔ a ≤ b * k := by
  have hd := Nat.div_add_mod a b
  by_cases hm : a % b = 0
  · rw [ceilDivNat, if_neg (by simpa using hm)]
    constructor
    · intro h
      calc a = b * (a / b) + a % b := hd.symm
        _ = b * (a / b) := by omega
        _ ≤ b * k := Nat.mul_le_mul_left b (by simpa using h)
    · intro h
      have h2 : b * (a / b) ≤ b * k := by
        calc b * (a / b) ≤ b * (a / b) + a % b := Nat.le_add_right _ _
          _ = a := hd
          _ ≤ b * k := h
      simpa using Nat.le_of_mul_le_mul_left h2 hb
  · rw [ceilDivNat, if_pos (by simpa using hm)]
    constructor
    · intro h
      have h2 : b * (a / b + 1) ≤ b * k := Nat.mul_le_mul_left b h
      have h3 : a < b * (a / b + 1) := by
        have := Nat.mod_lt a hb
        calc a = b * (a / b) + a % b := hd.symm
          _ < b * (a / b) + b := by omega
          _ = b * (a / b + 1) := by ring
      omega
    · intro h
      by_contra hcon
      have hk : k ≤ a / b := by omega
      have h2 : b * k ≤ b * (a / b) := Nat.mul_le_mul_left b hk
      have h3 : b * (a / b) ≤ a := by omega
      have h4 : a = b * (a / b) := by omega
      have : a % b = 0 := by omega
      exact hm this

lemma ceilDivNat_lt_iff {b : Nat} (hb : 0 < b) (a k : Nat) :
    k < ceilDivNat a b ↔ b * k < a := by
  constructor
  · intro h
    by_contra hcon
    have h1 : a ≤ b * k := by omega
    have h2 := (ceilDivNat_le_iff hb a k).mpr h1
    omega
  · intro h
    by_contra hcon
    have h1 : ceilDivNat a b ≤ k := by omega
    have h2 := (ceilDivNat_le_iff hb a k).mp h1
    omega

lemma le_mul_ceilDivNat {b : Nat} (hb : 0 < b) (a : Nat) : a ≤ b * ceilDivNat a b :=
  (ceilDivNat_le_iff hb a _).mp (Nat.le_refl _)

lemma ceilDivNat_antitone {n b b' : Nat} (hb : 0 < b) (hbb : b ≤ b') :
    ceilDivNat n b' ≤ ceilDivNat n b := by
  have hb' : 0 < b' := Nat.lt_of_lt_of_le hb hbb
  rw [ceilDivNat_le_iff hb' n _]
  calc n ≤ b * ceilDivNat n b := le_mul_ceilDivNat hb n
    _ ≤ b' * ceilDivNat n b := Nat.mul_le_mul_right _ hbb

lemma ceilDivNat_pos {n b : Nat} (hn : 0 < n) (hb : 0 < b) : 0 < ceilDivNat n b := by
  by_contra h
  have h2 : ceilDivNat n b ≤ 0 := by omega
  have := (ceilDivNat_le_iff hb n 0).mp h2
  omega

lemma ceilDivNat_one (n : Nat) : ceilDivNat n 1 = n := by
  simp [ceilDivNat, Nat.mod_one]

lemma ceilDivNat_self {n : Nat} (hn : 0 < n) : ceilDivNat n n = 1 := by
  have h1 : ceilDivNat n n ≤ 1 := (ceilDivNat_le_iff hn n 1).mpr (by omega)
  have h2 := ceilDivNat_pos hn hn
  omega

lemma ceilDivNat_le_self {n b : Nat} (hb : 0 < b) : ceilDivNat n b ≤ n := by
  rw [ceilDivNat_le_iff hb n n]
  exact Nat.le_mul_of_pos_left n hb

lemma ceilDivNat_of_le {n b : Nat} (hn : 0 < n) (hb : n ≤ b) : ceilDivNat n b = 1 := by
  have h1 : ceilDivNat n b ≤ 1 := (ceilDivNat_le_iff (by omega) n 1).mpr (by omega)
  have h2 := ceilDivNat_pos hn (by omega : 0 < b)
  omega

lemma ceilDivNat_galois {n nc : Nat} (hn : 0 < n) (hnc : 0 < nc) :
    ceilDivNat n (ceilDivNat n (ceilDivNat n nc)) = ceilDivNat n nc := by
  set r := ceilDivNat n nc with hr
  have hrpos : 0 < r := ceilDivNat_pos hn hnc
  set c := ceilDivNat n r with hc
  have hcpos : 0 < c := ceilDivNat_pos hn hrpos
  have hle : ceilDivNat n c ≤ r := by
    rw [ceilDivNat_le_iff hcpos n r]
    calc n ≤ r * ceilDivNat n r := le_mul_ceilDivNat hrpos n
      _ = c * r := by rw [← hc, Nat.mul_comm]
  have hge : r ≤ ceilDivNat n c := by
    by_contra hcon
    have h1 : ceilDivNat n c ≤ r - 1 := by omega
    have h2 : n ≤ c * (r - 1) := (ceilDivNat_le_iff hcpos n (r - 1)).mp h1
    have h3 : c ≤ nc := by
      rw [hc, ceilDivNat_le_iff hrpos n nc]
      calc n ≤ nc * ceilDivNat n nc := le_mul_ceilDivNat hnc n
        _ = r * nc := by rw [← hr, Nat.mul_comm]
    have h4 : c * (r - 1) ≤ nc * (r - 1) := Nat.mul_le_mul_right _ h3
    have h5 : nc * (r - 1) < n := by
      rw [← ceilDivNat_lt_iff hnc n (r - 1)]
      omega
    omega
  omega

lemma div_lt_ceilDivNat {n nl i : Nat} (hnl : 0 < nl) (hi : i < n) :
    i / nl < ceilDivNat n nl := by
  by_contra h
  have h1 : ceilDivNat n nl ≤ i / nl := by omega
  have h2 : n ≤ nl * (i / nl) := (ceilDivNat_le_iff hnl n _).mp h1
  have h3 : nl * (i / nl) ≤ i := by
    rw [Nat.mul_comm]
    exact Nat.div_mul_le_self i nl
  omega

/-! ### Sums of column widths -/

lemma sum_map_range (f : Nat → Nat) (n : Nat) :
    ((List.range n).map f).sum = ∑ j in Finset.range n, f j := by
  induction n with
  | zero => simp
  | succ n ih =>
    rw [List.range_succ, List.map_append, List.sum_append, Finset.sum_range_succ, ih]
    simp

lemma columnsDimensionsPos_sum (g : Grid) (nc : Nat) :
    (g.columnsDimensionsPos nc).widths.sum =
      ∑ j in Finset.range nc,
        colMaxFrom g.options.direction (ceilDivNat g.cells.length nc) nc g.cells 0 j := by
  rw [columnsDimensionsPos_widths, sum_map_range]

lemma ceilDivNat_eq {b : Nat} (hb : 0 < b) (a : Nat) :
    ceilDivNat a b = (a + b - 1) / b := by
  have h1 : ∀ k, (a + b - 1) / b ≤ k ↔ a ≤ b * k := by
    intro k
    rw [Nat.div_le_iff_le_mul_add_pred hb]
    omega
  have h2 := (h1 (ceilDivNat a b)).mpr (le_mul_ceilDivNat hb a)
  have h3 := (ceilDivNat_le_iff hb a ((a + b - 1) / b)).mpr ((h1 _).mp (Nat.le_refl _))
  omega

lemma columnsDimensionsPos_build (o : GridOptions) (cs : List Cell) (nc : Nat)
    (h : 1 ≤ nc) :
    (Grid.build o cs).columnsDimensionsPos nc =
      { num_lines := (cs.length + nc - 1) / nc,
        widths := (List.range nc).map (fun j =>
          colMaxFrom o.direction ((cs.length + nc - 1) / nc) nc cs 0 j) } := by
  have hD : (Grid.build o cs).columnsDimensionsPos nc =
      { num_lines := ((Grid.build o cs).columnsDimensionsPos nc).num_lines,
        widths := ((Grid.build o cs).columnsDimensionsPos nc).widths } := rfl
  rw [hD, columnsDimensionsPos_num_lines, columnsDimensionsPos_widths,
    build_cells, build_options, ceilDivNat_eq (by omega : 0 < nc)]

/-- Claim C8 (confirmed): for every grid reachable from Grid::new by a
finite sequence of Grid::add calls, the four aggregates are exactly
synchronized with the cell sequence: widest_cell_width is the maximum of
the cell widths (0 when empty, via the fold identity), narrowest_cell_width
is the minimum (usize::MAX, the integer standing in for plus infinity,
when empty), width_sum is the sum, cell_count is the length, and the cell
sequence itself is exactly the inserted cells in order (add only appends).
The membership conjuncts pin the max and min down as genuine extrema; the
width bound merely records that Rust cell widths are usize values. -/
theorem grid_aggregates_synchronized (o : GridOptions) (cs : List Cell)
    (hb : ∀ c ∈ cs, c.width ≤ USizeMax) :
    (Grid.build o cs).cells = cs ∧
    (Grid.build o cs).cell_count = cs.length ∧
    (Grid.build o cs).width_sum = (cs.map Cell.width).sum ∧
    (Grid.build o cs).widest_cell_width = (cs.map Cell.width).foldl max 0 ∧
    (Grid.build o cs).narrowest_cell_width = (cs.map Cell.width).foldl min USizeMax ∧
    (∀ c ∈ cs, c.width ≤ (Grid.build o cs).widest_cell_width ∧
               (Grid.build o cs).narrowest_cell_width ≤ c.width) ∧
    (cs ≠ [] → (Grid.build o cs).widest_cell_width ∈ cs.map Cell.width ∧
               (Grid.build o cs).narrowest_cell_width ∈ cs.map Cell.width) :=
  ⟨build_cells o cs, build_cell_count o cs, build_width_sum o cs,
   build_widest o cs, build_narrowest o cs,
   fun _ hc => ⟨width_le_widest hc, narrowest_le_width hc⟩,
   fun hne => ⟨widest_mem hne, narrowest_mem hne hb⟩⟩

theorem grid_aggregates_synchronized_witness :
    (Grid.build { direction := Direction.LeftToRight, filling := Filling.Spaces 1 }
      [⟨"ab", 2, Alignment.Left⟩, ⟨"c", 1, Alignment.Right⟩]).widest_cell_width =
        2 ∧
    (Grid.build { direction := Direction.LeftToRight, filling := Filling.Spaces 1 }
      [⟨"ab", 2, Alignment.Left⟩, ⟨"c", 1, Alignment.Right⟩]).narrowest_cell_width =
        1 := by
  have h := grid_aggregates_synchronized
    { direction := Direction.LeftToRight, filling := Filling.Spaces 1 }
    [⟨"ab", 2, Alignment.Left⟩, ⟨"c", 1, Alignment.Right⟩] (by decide)
  refine ⟨?_, ?_⟩
  · rw [h.2.2.2.1]; decide
  · rw [h.2.2.2.2.1]; decide

/-- Claim C9 (confirmed): fit_into_columns(0) never silently returns a
Dimensions value.  In the source, columns_dimensions(0) evaluates
cells.len() / 0, which panics in Rust (an attempt-to-divide-by-zero
error); the panic is the none value here, so the call surfaces as an
error for every grid rather than producing nonsensical dimensions. -/
theorem fit_into_columns_zero_rejected (g : Grid) : g.fit_into_columns 0 = none := rfl

/-- Claim C6 (confirmed): the renderer's inverse formula (row y, column x
holds sequence index y*num_columns + x under LeftToRight and
y + num_lines*x under TopToBottom) and the measuring pass's forward
mapping (index i goes to column i mod num_columns, respectively
i div num_lines) are mutually consistent: for every num_lines >= 1,
num_columns >= 1, y < num_lines and x < num_columns, the forward mapping
assigns the renderer's index for (y, x) to exactly column x. -/
theorem forward_inverse_mapping_consistent (dir : Direction) (nl nc y x : Nat)
    (hnl : 1 ≤ nl) (hnc : 1 ≤ nc) (hy : y < nl) (hx : x < nc) :
    colIndex dir nl nc (slotIndex dir nl nc y x) = x := by
  cases dir
  · show (y * nc + x) % nc = x
    rw [Nat.add_comm, Nat.add_mul_mod_self_right]
    exact Nat.mod_eq_of_lt hx
  · show (y + nl * x) / nl = x
    rw [Nat.add_mul_div_left _ _ (by omega : 0 < nl), Nat.div_eq_of_lt hy]
    omega

theorem forward_inverse_mapping_consistent_witness :
    colIndex Direction.TopToBottom 3 2 (slotIndex Direction.TopToBottom 3 2 2 1) = 1 :=
  forward_inverse_mapping_consistent Direction.TopToBottom 3 2 2 1
    (by decide) (by decide) (by decide) (by decide)

/-- Claim C5 (confirmed): for every grid built through the public API and
every num_columns >= 1, fit_into_columns returns a Display whose
num_lines is the ceiling of count / num_columns and whose width for each
column j is the maximum width of the cells mapped to column j (zero for a
column that receives no cell), where colMaxFrom realises exactly the
mapping of the claim: cell i goes to column i mod num_columns under
LeftToRight and to column i div num_lines under TopToBottom (colIndex). -/
theorem fit_into_columns_dimensions (o : GridOptions) (cs : List Cell) (nc : Nat)
    (h : 1 ≤ nc) :
    (Grid.build o cs).fit_into_columns nc =
      some { grid := Grid.build o cs,
             dimensions :=
               { num_lines := (cs.length + nc - 1) / nc,
                 widths := (List.range nc).map (fun j =>
                   colMaxFrom o.direction ((cs.length + nc - 1) / nc) nc cs 0 j) } } := by
  rw [Grid.fit_into_columns, Grid.columns_dimensions, if_neg (by omega : ¬ nc = 0)]
  rw [Option.map_some', columnsDimensionsPos_build o cs nc h]

theorem fit_into_columns_dimensions_witness :
    (Grid.build { direction := Direction.TopToBottom, filling := Filling.Spaces 1 }
      [⟨"p", 1, Alignment.Left⟩, ⟨"qq", 2, Alignment.Left⟩, ⟨"r", 1, Alignment.Left⟩]).fit_into_columns 2 =
      some { grid := Grid.build { direction := Direction.TopToBottom, filling := Filling.Spaces 1 }
               [⟨"p", 1, Alignment.Left⟩, ⟨"qq", 2, Alignment.Left⟩, ⟨"r", 1, Alignment.Left⟩],
             dimensions := { num_lines := 2, widths := [2, 1] } } := by
  rw [fit_into_columns_dimensions _ _ 2 (by decide)]
  decide

/-! ### The renderer: ghost slots contribute nothing -/

lemma str_empty_append (s : String) : "" ++ s = s := rfl

lemma concatStrings_map_filter (f : Nat → String) (p : Nat → Prop) [DecidablePred p] :
    ∀ l : List Nat,
      concatStrings (l.map (fun x => if p x then f x else "")) =
        concatStrings ((l.filter (fun x => decide (p x))).map f)
  | [] => rfl
  | x :: l => by
    rw [List.map_cons, concatStrings]
    by_cases h : p x
    · rw [if_pos h, List.filter_cons_of_pos (by simpa using h), List.map_cons,
        concatStrings, concatStrings_map_filter f p l]
    · rw [if_neg h, List.filter_cons_of_neg (by simpa using h),
        concatStrings_map_filter f p l, str_empty_append]

/-- Claim C2 (corrected), amended part: in every rendered line, a slot
whose computed cell index is at least the cell count emits nothing: the
line is exactly the concatenation of the outputs of its real slots, and
the final column's slot output carries no filling, so a line whose last
real cell sits in the final column ends without a separator.  The
original claim's further assertion that no line ever ends with a
trailing separator is refuted by the counterexample below: a ragged line
whose last real cell lies in a non-final column keeps that column's
trailing filling (the crate's own expected output exhibits this). -/
theorem render_line_skips_ghost_slots (g : Grid) (d : Dimensions) (y : Nat) :
    renderLine g d y =
      concatStrings
        (((List.range d.widths.length).filter
            (fun x => decide (slotIndex g.options.direction d.num_lines d.widths.length y x <
              g.cells.length))).map
          (fun x => renderCellSlot g d
            (slotIndex g.options.direction d.num_lines d.widths.length y x) x)) := by
  have hslot : ∀ x, renderSlot g d y x =
      if slotIndex g.options.direction d.num_lines d.widths.length y x < g.cells.length
      then renderCellSlot g d (slotIndex g.options.direction d.num_lines d.widths.length y x) x
      else "" := by
    intro x
    simp only [renderSlot]
    by_cases h : slotIndex g.options.direction d.num_lines d.widths.length y x ≥ g.cells.length
    · rw [if_pos h, if_neg (by omega)]
    · rw [if_neg h, if_pos (by omega)]
  rw [renderLine, funext hslot]
  exact concatStrings_map_filter _ _ _

/-- Claim C2 counterexample: three width-1 cells a, b, c laid out
LeftToRight with the Text separator between columns, in two columns.
fit_into_columns 2 yields the 2-line layout; the second line renders as
the cell contents followed by the separator, because the last real cell
of that ragged line sits in a non-final column, whose branch always
appends the filling.  The rendered line therefore ends with a trailing
separator, so the specification predicate noTrailingSeparator is false:
the claim that no line ends with a trailing separator fails on the code. -/
theorem trailing_separator_counterexample :
    (Grid.build { direction := Direction.LeftToRight, filling := Filling.Text "|" }
      [⟨"a", 1, Alignment.Left⟩, ⟨"b", 1, Alignment.Left⟩, ⟨"c", 1, Alignment.Left⟩]).fit_into_columns 2 =
      some { grid := Grid.build { direction := Direction.LeftToRight, filling := Filling.Text "|" }
               [⟨"a", 1, Alignment.Left⟩, ⟨"b", 1, Alignment.Left⟩, ⟨"c", 1, Alignment.Left⟩],
             dimensions := { num_lines := 2, widths := [1, 1] } } ∧
    renderLines
      (Grid.build { direction := Direction.LeftToRight, filling := Filling.Text "|" }
        [⟨"a", 1, Alignment.Left⟩, ⟨"b", 1, Alignment.Left⟩, ⟨"c", 1, Alignment.Left⟩])
      { num_lines := 2, widths := [1, 1] } = ["a|b", "c" ++ "|"] ∧
    noTrailingSeparator
      (Grid.build { direction := Direction.LeftToRight, filling := Filling.Text "|" }
        [⟨"a", 1, Alignment.Left⟩, ⟨"b", 1, Alignment.Left⟩, ⟨"c", 1, Alignment.Left⟩])
      { num_lines := 2, widths := [1, 1] } = false := by
  refine ⟨by decide, by decide, by decide⟩

/-- Claim C1 counterexample: four width-10 cells laid out TopToBottom
with Spaces 1 and maximum_width 25.  The solver's theoretical bound is 2,
so it returns the 2-column, 2-row layout; but the 3-column layout (an
empty third column arises under TopToBottom) has total rendered width
22 < 25 and so also fits.  A fitting column count (3) strictly larger
than the chosen one (2 columns, the length of the returned widths list)
exists, refuting the conjunct that the largest fitting column count is
chosen; both layouts have 2 rows, so the fewest-rows conjunct survives
and is proved separately as the amended claim. -/
theorem largest_fitting_column_count_not_chosen :
    (Grid.build { direction := Direction.TopToBottom, filling := Filling.Spaces 1 }
      (List.replicate 4 ⟨"aaaaaaaaaa", 10, Alignment.Left⟩)).width_dimensions 25 =
      some (some { num_lines := 2, widths := [10, 10] }) ∧
    ((Grid.build { direction := Direction.TopToBottom, filling := Filling.Spaces 1 }
      (List.replicate 4 ⟨"aaaaaaaaaa", 10, Alignment.Left⟩)).columnsDimensionsPos 3).total_width 1 = 22 ∧
    22 < 25 ∧ 2 < 3 := by
  refine ⟨by decide, by decide, by decide, by decide⟩

/-- Claim C3 counterexample: a single cell of width 10 with
maximum_width 10.  fit_into_width(10) returns a layout (the crate's own
one_item_exact_width test relies on this), and its total rendered width
is exactly 10, which is not strictly less than the maximum width: the
claim's strict inequality fails at the boundary.  The amended claim
(total width at most maximum_width) is proved separately. -/
theorem fitted_width_not_strictly_less_counterexample :
    ((Grid.build { direction := Direction.TopToBottom, filling := Filling.Spaces 2 }
      [⟨"1234567890", 10, Alignment.Left⟩]).fit_into_width 10).map
        (Option.map Display.width) = some (some 10) ∧ ¬ (10 < 10) :=
  ⟨by decide, by omega⟩

/-- Claim C4 (code_bug): evaluation at the failing input.  For the grid
of two zero-width cells with Spaces 0 filling and maximum_width 10, the
widest cell fits (0 <= 10) and the filling fits (0 <= 10), so the claim
says a layout is returned; but the source reaches
theoretical_max_column_count, where it divides by
narrowest_cell_width + filling width = 0 and panics (the outer none
below), returning neither a layout nor the absence signal. -/
theorem fit_into_width_panics_on_zero_widths :
    (Grid.build { direction := Direction.LeftToRight, filling := Filling.Spaces 0 }
      [⟨"", 0, Alignment.Left⟩, ⟨"", 0, Alignment.Left⟩]).widest_cell_width ≤ 10 ∧
    (Filling.Spaces 0).width ≤ 10 ∧
    (Grid.build { direction := Direction.LeftToRight, filling := Filling.Spaces 0 }
      [⟨"", 0, Alignment.Left⟩, ⟨"", 0, Alignment.Left⟩]).fit_into_width 10 = none := by
  refine ⟨by decide, by decide, by decide⟩

/-- Claim C10 (code_bug): evaluation at the failing input.  The pruning
bound is reached for this grid (two cells, widest 0 <= 7, filling width
0 <= 7), yet the divisor narrowest_cell_width + filling width is zero:
theoretical_max_column_count divides by zero, a Rust panic (none), so
fit_into_width does perform a division by zero, contradicting the claim. -/
theorem theoretical_max_column_count_divides_by_zero :
    2 ≤ (Grid.build { direction := Direction.TopToBottom, filling := Filling.Text "" }
      [⟨"x", 0, Alignment.Left⟩, ⟨"y", 0, Alignment.Left⟩]).cell_count ∧
    (Grid.build { direction := Direction.TopToBottom, filling := Filling.Text "" }
      [⟨"x", 0, Alignment.Left⟩, ⟨"y", 0, Alignment.Left⟩]).widest_cell_width ≤ 7 ∧
    (Filling.Text "").width ≤ 7 ∧
    (Grid.build { direction := Direction.TopToBottom, filling := Filling.Text "" }
      [⟨"x", 0, Alignment.Left⟩, ⟨"y", 0, Alignment.Left⟩]).narrowest_cell_width +
      (Filling.Text "").width = 0 ∧
    (Grid.build { direction := Direction.TopToBottom, filling := Filling.Text "" }
      [⟨"x", 0, Alignment.Left⟩, ⟨"y", 0, Alignment.Left⟩]).theoretical_max_column_count 7 = none ∧
    (Grid.build { direction := Direction.TopToBottom, filling := Filling.Text "" }
      [⟨"x", 0, Alignment.Left⟩, ⟨"y", 0, Alignment.Left⟩]).width_dimensions 7 = none := by
  refine ⟨by decide, by decide, by decide, by decide, by decide, by decide⟩

/-! ### The width-fitting scan -/

/-- The fitting criterion of the scan loop in width_dimensions: the
column widths sum to strictly less than the budget left after the
separators (Nat subtraction, as in the source). -/
def fitScanSum (g : Grid) (maximum_width num_columns : Nat) : Prop :=
  (g.columnsDimensionsPos num_columns).widths.sum <
    maximum_width - (num_columns - 1) * g.options.filling.width

/-- A column count fits within the budget when its fixed-column layout's
total rendered width (what Display::width reports) is strictly below
maximum_width. -/
def fitsWidth (g : Grid) (maximum_width num_columns : Nat) : Prop :=
  (g.columnsDimensionsPos num_columns).total_width g.options.filling.width < maximum_width

instance (g : Grid) (mw nc : Nat) : Decidable (fitsWidth g mw nc) := by
  unfold fitsWidth
  infer_instance

/-- The value theoretical_max_column_count computes when its divisor is
nonzero. -/
def tmccVal (g : Grid) (maximum_width : Nat) : Nat :=
  min ((maximum_width - g.widest_cell_width) /
        (g.narrowest_cell_width + g.options.filling.width) + 1)
    g.cell_count

lemma theoretical_eq (g : Grid) (mw : Nat)
    (hD : g.narrowest_cell_width + g.options.filling.width ≠ 0) :
    g.theoretical_max_column_count mw = some (tmccVal g mw) := by
  simp only [Grid.theoretical_max_column_count]
  rw [if_neg hD, tmccVal]

lemma tmccVal_mono (g : Grid) {m m' : Nat} (h : m ≤ m') :
    tmccVal g m ≤ tmccVal g m' := by
  unfold tmccVal
  refine min_le_min (Nat.add_le_add_right ?_ 1) (Nat.le_refl _)
  exact Nat.div_le_div_right (Nat.sub_le_sub_right h _)

lemma total_width_eq (g : Grid) (nc : Nat) (h : 1 ≤ nc) (sep : Nat) :
    (g.columnsDimensionsPos nc).total_width sep =
      (g.columnsDimensionsPos nc).widths.sum + sep * (nc - 1) := by
  rw [Dimensions.total_width]
  have hlen := columnsDimensionsPos_length g nc
  rw [if_neg (by rw [List.isEmpty_iff]; intro hnil; rw [hnil] at hlen; simp at hlen; omega)]
  rw [hlen]

lemma scanColumns_num_lines_le (g : Grid) (mw : Nat) :
    ∀ k, (g.scanColumns mw k).num_lines ≤ g.cells.length
  | 0 => by
    rw [Grid.scanColumns, columnsDimensionsPos_num_lines, ceilDivNat_one]
  | 1 => by
    rw [Grid.scanColumns, columnsDimensionsPos_num_lines, ceilDivNat_one]
  | k + 2 => by
    rw [Grid.scanColumns]
    split
    · rw [columnsDimensionsPos_num_lines]
      exact ceilDivNat_le_self (by omega)
    · exact scanColumns_num_lines_le g mw (k + 1)

lemma scanColumns_cases (g : Grid) (mw : Nat) :
    ∀ k, g.scanColumns mw k = g.columnsDimensionsPos 1 ∨
      ∃ j, 2 ≤ j ∧ j ≤ k ∧ fitScanSum g mw j ∧
        g.scanColumns mw k = g.columnsDimensionsPos j
  | 0 => Or.inl rfl
  | 1 => Or.inl rfl
  | k + 2 => by
    rw [Grid.scanColumns]
    split
    · refine Or.inr ⟨k + 2, by omega, Nat.le_refl _, ?_, rfl⟩
      simpa [fitScanSum] using (by assumption :
        (g.columnsDimensionsPos (k + 2)).widths.sum <
          mw - (k + 1) * g.options.filling.width)
    · rcases scanColumns_cases g mw (k + 1) with h | ⟨j, h2, hle, hfit, heq⟩
      · exact Or.inl h
      · exact Or.inr ⟨j, h2, by omega, hfit, heq⟩

lemma scanColumns_min_rows (g : Grid) (mw : Nat) :
    ∀ k j, 2 ≤ j → j ≤ k → fitScanSum g mw j →
      (g.scanColumns mw k).num_lines ≤ ceilDivNat g.cells.length j
  | 0, j, h2, hle, _ => absurd (Nat.le_trans h2 hle) (by omega)
  | 1, j, h2, hle, _ => absurd (Nat.le_trans h2 hle) (by omega)
  | k + 2, j, h2, hle, hfit => by
    rw [Grid.scanColumns]
    split
    · rw [columnsDimensionsPos_num_lines]
      exact ceilDivNat_antitone (by omega) hle
    · rcases Nat.lt_or_ge j (k + 2) with hj | hj
      · exact scanColumns_min_rows g mw (k + 1) j h2 (by omega) hfit
      · exfalso
        have hjeq : j = k + 2 := by omega
        subst hjeq
        rename_i hnofit
        exact hnofit (by simpa [fitScanSum] using hfit)

lemma scanColumns_largest (g : Grid) (mw : Nat) :
    ∀ k j, 2 ≤ j → j ≤ k → fitScanSum g mw j →
      j ≤ (g.scanColumns mw k).widths.length
  | 0, j, h2, hle, _ => absurd (Nat.le_trans h2 hle) (by omega)
  | 1, j, h2, hle, _ => absurd (Nat.le_trans h2 hle) (by omega)
  | k + 2, j, h2, hle, hfit => by
    rw [Grid.scanColumns]
    split
    · rw [columnsDimensionsPos_length]
      exact hle
    · rcases Nat.lt_or_ge j (k + 2) with hj | hj
      · exact scanColumns_largest g mw (k + 1) j h2 (by omega) hfit
      · exfalso
        have hjeq : j = k + 2 := by omega
        subst hjeq
        rename_i hnofit
        exact hnofit (by simpa [fitScanSum] using hfit)

/-! ### Lower bounds on column width sums -/

lemma getD_eq_get_cell : ∀ (l : List Cell) (j : Nat) (h : j < l.length),
    l.getD j default = l.get ⟨j, h⟩
  | [], _, h => absurd h (by simp)
  | _ :: _, 0, _ => rfl
  | _ :: l, j + 1, h => getD_eq_get_cell l j (by simpa using h)

lemma exists_widest_index (o : GridOptions) (cs : List Cell) (hne : cs ≠ []) :
    ∃ i, i < cs.length ∧
      (cs.getD i default).width = (Grid.build o cs).widest_cell_width := by
  obtain ⟨c, hc, hcw⟩ := List.mem_map.mp (widest_mem hne)
  obtain ⟨⟨i, hi⟩, hget⟩ := List.mem_iff_get.mp hc
  refine ⟨i, hi, ?_⟩
  rw [getD_eq_get_cell cs i hi, hget, hcw]

lemma narrowest_le_getD (o : GridOptions) (cs : List Cell) (i : Nat) (hi : i < cs.length) :
    (Grid.build o cs).narrowest_cell_width ≤ (cs.getD i default).width := by
  rw [getD_eq_get_cell cs i hi]
  exact narrowest_le_width (List.get_mem cs i hi)

lemma sum_colMax_ge (dir : Direction) (nl nc : Nat) (cs : List Cell) (W N jstar : Nat)
    (hjs : jstar < nc)
    (hstar : ∃ i, i < cs.length ∧ colIndex dir nl nc i = jstar ∧
      W ≤ (cs.getD i default).width)
    (hcov : ∀ j, j < nc → j ≠ jstar → ∃ i, i < cs.length ∧ colIndex dir nl nc i = j)
    (hN : ∀ i, i < cs.length → N ≤ (cs.getD i default).width) :
    W + (nc - 1) * N ≤ ∑ j in Finset.range nc, colMaxFrom dir nl nc cs 0 j := by
  obtain ⟨istar, histar, hcolstar, hWle⟩ := hstar
  have hfstar : W ≤ colMaxFrom dir nl nc cs 0 jstar :=
    Nat.le_trans hWle (colMaxFrom_ge dir nl nc cs 0 istar jstar histar (by simpa using hcolstar))
  have hfN : ∀ j, j < nc → j ≠ jstar → N ≤ colMaxFrom dir nl nc cs 0 j := by
    intro j hj hne
    obtain ⟨i, hi, hcol⟩ := hcov j hj hne
    exact Nat.le_trans (hN i hi) (colMaxFrom_ge dir nl nc cs 0 i j hi (by simpa using hcol))
  have hmem : jstar ∈ Finset.range nc := Finset.mem_range.mpr hjs
  rw [← Finset.add_sum_erase _ _ hmem]
  have hcard : ((Finset.range nc).erase jstar).card = nc - 1 := by
    rw [Finset.card_erase_of_mem hmem, Finset.card_range]
  have hsum : (nc - 1) * N ≤
      ∑ j in (Finset.range nc).erase jstar, colMaxFrom dir nl nc cs 0 j := by
    have hb := Finset.card_nsmul_le_sum ((Finset.range nc).erase jstar)
      (colMaxFrom dir nl nc cs 0) N
      (fun j hj => hfN j (Finset.mem_range.mp (Finset.mem_of_mem_erase hj))
        (Finset.ne_of_mem_erase hj))
    rwa [hcard, smul_eq_mul] at hb
  omega

lemma colMaxFrom_congr (dir dir' : Direction) (nl nl' nc nc' : Nat) :
    ∀ (cs : List Cell) (k j : Nat),
      (∀ i, i < cs.length → colIndex dir nl nc (k + i) = colIndex dir' nl' nc' (k + i)) →
      colMaxFrom dir nl nc cs k j = colMaxFrom dir' nl' nc' cs k j
  | [], _, _, _ => rfl
  | c :: cs, k, j, h => by
    rw [colMaxFrom, colMaxFrom]
    have h0 : colIndex dir nl nc k = colIndex dir' nl' nc' k := by
      simpa using h 0 (by simp)
    rw [h0, colMaxFrom_congr dir dir' nl nl' nc nc' cs (k + 1) j
      (fun i hi => by
        have := h (i + 1) (by simpa using hi)
        simpa [Nat.add_assoc, Nat.add_comm 1 i] using this)]

lemma sum_colMax_drop_empty (dir : Direction) (nl : Nat) (cs : List Cell) (nc nc' : Nat)
    (hle : nc' ≤ nc)
    (hzero : ∀ j, nc' ≤ j → j < nc → colMaxFrom dir nl nc cs 0 j = 0)
    (hsame : ∀ j, j < nc' → colMaxFrom dir nl nc cs 0 j = colMaxFrom dir nl nc' cs 0 j) :
    ∑ j in Finset.range nc, colMaxFrom dir nl nc cs 0 j =
      ∑ j in Finset.range nc', colMaxFrom dir nl nc' cs 0 j := by
  rw [Finset.range_eq_Ico, ← Finset.sum_Ico_consecutive _ (Nat.zero_le nc') hle]
  have h1 : ∑ j in Finset.Ico nc' nc, colMaxFrom dir nl nc cs 0 j = 0 :=
    Finset.sum_eq_zero (fun j hj =>
      hzero j (Finset.mem_Ico.mp hj).1 (Finset.mem_Ico.mp hj).2)
  have h2 : ∑ j in Finset.Ico 0 nc', colMaxFrom dir nl nc cs 0 j =
      ∑ j in Finset.Ico 0 nc', colMaxFrom dir nl nc' cs 0 j :=
    Finset.sum_congr rfl (fun j hj => hsame j (Finset.mem_Ico.mp hj).2)
  rw [h1, h2, ← Finset.range_eq_Ico, Nat.add_zero]

/-! ### Soundness of the theoretical pruning bound -/

lemma colIndex_one_line (dir : Direction) (nc i : Nat) (hi : i < nc) :
    colIndex dir 1 nc i = i := by
  cases dir
  · exact Nat.mod_eq_of_lt hi
  · exact Nat.div_one i

lemma build_sum_widths (o : GridOptions) (cs : List Cell) (nc : Nat) :
    ((Grid.build o cs).columnsDimensionsPos nc).widths.sum =
      ∑ j in Finset.range nc,
        colMaxFrom o.direction (ceilDivNat cs.length nc) nc cs 0 j := by
  rw [columnsDimensionsPos_sum, build_cells, build_options]

lemma build_fitsWidth_iff (o : GridOptions) (cs : List Cell) (mw nc : Nat)
    (h : 1 ≤ nc) :
    fitsWidth (Grid.build o cs) mw nc ↔
      (∑ j in Finset.range nc,
        colMaxFrom o.direction (ceilDivNat cs.length nc) nc cs 0 j) +
        o.filling.width * (nc - 1) < mw := by
  rw [fitsWidth, total_width_eq _ _ h, build_sum_widths, build_options]

lemma build_tmccVal (o : GridOptions) (cs : List Cell) (mw : Nat) :
    tmccVal (Grid.build o cs) mw =
      min ((mw - (Grid.build o cs).widest_cell_width) /
        ((Grid.build o cs).narrowest_cell_width + o.filling.width) + 1) cs.length := by
  rw [tmccVal, build_options, build_cell_count]

lemma fitsWidth_iff_scan (o : GridOptions) (cs : List Cell) (mw nc : Nat)
    (hnc1 : 1 ≤ nc)
    (hle : nc ≤ (mw - (Grid.build o cs).widest_cell_width) /
      ((Grid.build o cs).narrowest_cell_width + o.filling.width) + 1)
    (hD : 0 < (Grid.build o cs).narrowest_cell_width + o.filling.width) :
    fitsWidth (Grid.build o cs) mw nc ↔ fitScanSum (Grid.build o cs) mw nc := by
  have hfw : o.filling.width ≤
      (Grid.build o cs).narrowest_cell_width + o.filling.width := Nat.le_add_left _ _
  have h1 : nc - 1 ≤ (mw - (Grid.build o cs).widest_cell_width) /
      ((Grid.build o cs).narrowest_cell_width + o.filling.width) := by omega
  have h2 : (nc - 1) * ((Grid.build o cs).narrowest_cell_width + o.filling.width) ≤
      mw - (Grid.build o cs).widest_cell_width := (Nat.le_div_iff_mul_le hD).mp h1
  have h3 : (nc - 1) * o.filling.width ≤
      (nc - 1) * ((Grid.build o cs).narrowest_cell_width + o.filling.width) :=
    Nat.mul_le_mul_left _ hfw
  rw [fitsWidth, fitScanSum, total_width_eq _ _ hnc1, build_options]
  have hcomm : o.filling.width * (nc - 1) = (nc - 1) * o.filling.width :=
    Nat.mul_comm _ _
  omega

lemma fitsWidth_imp_le_tmcc (o : GridOptions) (cs : List Cell) (mw nc : Nat)
    (hne : cs ≠ []) (hnc1 : 1 ≤ nc) (hncn : nc ≤ cs.length)
    (hD : 0 < (Grid.build o cs).narrowest_cell_width + o.filling.width)
    (hidx : ∀ i, i < cs.length →
      colIndex o.direction (ceilDivNat cs.length nc) nc i < nc)
    (hcov : ∀ j, j < nc → ∃ i, i < cs.length ∧
      colIndex o.direction (ceilDivNat cs.length nc) nc i = j)
    (hfit : fitsWidth (Grid.build o cs) mw nc) :
    nc ≤ tmccVal (Grid.build o cs) mw := by
  rw [build_fitsWidth_iff o cs mw nc hnc1] at hfit
  obtain ⟨istar, histar, hstarw⟩ := exists_widest_index o cs hne
  have hge := sum_colMax_ge o.direction (ceilDivNat cs.length nc) nc cs
    (Grid.build o cs).widest_cell_width (Grid.build o cs).narrowest_cell_width
    (colIndex o.direction (ceilDivNat cs.length nc) nc istar)
    (hidx istar histar)
    ⟨istar, histar, rfl, Nat.le_of_eq hstarw.symm⟩
    (fun j hj _ => hcov j hj)
    (fun i hi => narrowest_le_getD o cs i hi)
  rw [build_tmccVal]
  refine Nat.le_min.mpr ⟨?_, hncn⟩
  have hmul : (nc - 1) * ((Grid.build o cs).narrowest_cell_width + o.filling.width) =
      (nc - 1) * (Grid.build o cs).narrowest_cell_width + (nc - 1) * o.filling.width :=
    Nat.mul_add _ _ _
  have hcomm : o.filling.width * (nc - 1) = (nc - 1) * o.filling.width :=
    Nat.mul_comm _ _
  have h2 : (nc - 1) * ((Grid.build o cs).narrowest_cell_width + o.filling.width) ≤
      mw - (Grid.build o cs).widest_cell_width := by omega
  have h3 : nc - 1 ≤ (mw - (Grid.build o cs).widest_cell_width) /
      ((Grid.build o cs).narrowest_cell_width + o.filling.width) :=
    (Nat.le_div_iff_mul_le hD).mpr h2
  omega

/-- Any column count of at least 2 that fits within the budget can be
replaced by a column count in the scan range [2, theoretical bound] that
also fits (in the scan's own criterion) and needs no more rows: under
LeftToRight a count up to the cell count is already in range; counts
beyond the cell count and TopToBottom counts with empty trailing columns
collapse to the count of nonempty columns, which has the same rows and
no larger total width. -/
lemma fits_reduce (o : GridOptions) (cs : List Cell) (mw nc : Nat)
    (hn2 : 2 ≤ cs.length) (hnc2 : 2 ≤ nc)
    (hD : 0 < (Grid.build o cs).narrowest_cell_width + o.filling.width)
    (hfit : fitsWidth (Grid.build o cs) mw nc) :
    ∃ nc', 2 ≤ nc' ∧ nc' ≤ tmccVal (Grid.build o cs) mw ∧
      fitScanSum (Grid.build o cs) mw nc' ∧
      ceilDivNat cs.length nc' ≤ ceilDivNat cs.length nc := by
  have hne : cs ≠ [] := by
    intro h
    rw [h] at hn2
    simp at hn2
  rcases Nat.lt_or_ge nc cs.length with hcase | hcase
  · cases hdir : o.direction with
    | LeftToRight =>
      have hidx : ∀ i, i < cs.length →
          colIndex o.direction (ceilDivNat cs.length nc) nc i < nc := by
        intro i _
        rw [hdir]
        exact Nat.mod_lt i (by omega)
      have hcov : ∀ j, j < nc → ∃ i, i < cs.length ∧
          colIndex o.direction (ceilDivNat cs.length nc) nc i = j := by
        intro j hj
        refine ⟨j, by omega, ?_⟩
        rw [hdir]
        exact Nat.mod_eq_of_lt hj
      have hto := fitsWidth_imp_le_tmcc o cs mw nc hne (by omega) (by omega) hD hidx hcov hfit
      have hleF : nc ≤ (mw - (Grid.build o cs).widest_cell_width) /
          ((Grid.build o cs).narrowest_cell_width + o.filling.width) + 1 := by
        have h := hto
        rw [build_tmccVal] at h
        exact Nat.le_trans h (Nat.min_le_left _ _)
      exact ⟨nc, hnc2, hto, (fitsWidth_iff_scan o cs mw nc (by omega) hleF hD).mp hfit,
        Nat.le_refl _⟩
    | TopToBottom =>
      have hnpos : 0 < cs.length := by omega
      have hrpos : 0 < ceilDivNat cs.length nc := ceilDivNat_pos hnpos (by omega)
      set r := ceilDivNat cs.length nc with hr
      set nc' := ceilDivNat cs.length r with hnc'
      have hnc'pos : 0 < nc' := ceilDivNat_pos hnpos hrpos
      have hgal : ceilDivNat cs.length nc' = r := by
        rw [hnc', hr]
        exact ceilDivNat_galois hnpos (by omega)
      have hnc'le : nc' ≤ nc := by
        rw [hnc', ceilDivNat_le_iff hrpos]
        calc cs.length ≤ nc * ceilDivNat cs.length nc := le_mul_ceilDivNat (by omega) _
          _ = r * nc := by rw [← hr, Nat.mul_comm]
      have hrn : r < cs.length := by
        have h1 : r ≤ ceilDivNat cs.length 2 := by
          rw [hr]
          exact ceilDivNat_antitone (by omega) hnc2
        have h2 : ceilDivNat cs.length 2 ≤ cs.length - 1 := by
          rw [ceilDivNat_le_iff (by omega)]
          omega
        omega
      have hnc'2 : 2 ≤ nc' := by
        by_contra hcon
        have h1 : nc' = 1 := by omega
        rw [h1, ceilDivNat_one] at hgal
        omega
      have hzero : ∀ j, nc' ≤ j → j < nc →
          colMaxFrom Direction.TopToBottom r nc cs 0 j = 0 := by
        intro j hj1 hj2
        apply colMaxFrom_eq_zero
        intro i hi heq
        have hdiv : (0 + i) / r < ceilDivNat cs.length r :=
          div_lt_ceilDivNat hrpos (by omega)
        have hci : colIndex Direction.TopToBottom r nc (0 + i) = (0 + i) / r := rfl
        rw [hci] at heq
        rw [← hnc'] at hdiv
        omega
      have hsame : ∀ j, j < nc' →
          colMaxFrom Direction.TopToBottom r nc cs 0 j =
            colMaxFrom Direction.TopToBottom r nc' cs 0 j := by
        intro j _
        exact colMaxFrom_congr _ _ _ _ _ _ cs 0 j (fun i _ => rfl)
      have hsumeq := sum_colMax_drop_empty Direction.TopToBottom r cs nc nc' hnc'le hzero hsame
      have hfit' : fitsWidth (Grid.build o cs) mw nc' := by
        rw [build_fitsWidth_iff o cs mw nc' (by omega), hdir, hgal, ← hsumeq]
        rw [build_fitsWidth_iff o cs mw nc (by omega), hdir, ← hr] at hfit
        have hmle : o.filling.width * (nc' - 1) ≤ o.filling.width * (nc - 1) :=
          Nat.mul_le_mul_left _ (by omega)
        omega
      have hidx : ∀ i, i < cs.length →
          colIndex o.direction (ceilDivNat cs.length nc') nc' i < nc' := by
        intro i hi
        rw [hdir, hgal]
        show i / r < nc'
        have hdiv := div_lt_ceilDivNat hrpos hi
        rw [← hnc'] at hdiv
        exact hdiv
      have hcov : ∀ j, j < nc' → ∃ i, i < cs.length ∧
          colIndex o.direction (ceilDivNat cs.length nc') nc' i = j := by
        intro j hj
        have h1 : r * j < cs.length := by
          rw [← ceilDivNat_lt_iff hrpos]
          rw [← hnc']
          exact hj
        refine ⟨r * j, h1, ?_⟩
        rw [hdir, hgal]
        show r * j / r = j
        exact Nat.mul_div_cancel_left j hrpos
      have hto := fitsWidth_imp_le_tmcc o cs mw nc' hne (by omega)
        (by rw [hnc']; exact ceilDivNat_le_self hrpos) hD hidx hcov hfit'
      have hleF : nc' ≤ (mw - (Grid.build o cs).widest_cell_width) /
          ((Grid.build o cs).narrowest_cell_width + o.filling.width) + 1 := by
        have h := hto
        rw [build_tmccVal] at h
        exact Nat.le_trans h (Nat.min_le_left _ _)
      refine ⟨nc', hnc'2, hto, (fitsWidth_iff_scan o cs mw nc' (by omega) hleF hD).mp hfit', ?_⟩
      exact Nat.le_of_eq hgal
  · have hnl1 : ceilDivNat cs.length nc = 1 := ceilDivNat_of_le (by omega) hcase
    have hnl1' : ceilDivNat cs.length cs.length = 1 := ceilDivNat_self (by omega)
    have hsame : ∀ j, j < cs.length →
        colMaxFrom o.direction 1 nc cs 0 j = colMaxFrom o.direction 1 cs.length cs 0 j := by
      intro j _
      apply colMaxFrom_congr
      intro i hi
      rw [colIndex_one_line o.direction nc (0 + i) (by omega),
          colIndex_one_line o.direction cs.length (0 + i) (by omega)]
    have hzero : ∀ j, cs.length ≤ j → j < nc →
        colMaxFrom o.direction 1 nc cs 0 j = 0 := by
      intro j hj1 hj2
      apply colMaxFrom_eq_zero
      intro i hi heq
      rw [colIndex_one_line o.direction nc (0 + i) (by omega)] at heq
      omega
    have hsumeq := sum_colMax_drop_empty o.direction 1 cs nc cs.length hcase hzero hsame
    have hfit' : fitsWidth (Grid.build o cs) mw cs.length := by
      rw [build_fitsWidth_iff o cs mw cs.length (by omega), hnl1', ← hsumeq]
      rw [build_fitsWidth_iff o cs mw nc (by omega), hnl1] at hfit
      have hmle : o.filling.width * (cs.length - 1) ≤ o.filling.width * (nc - 1) :=
        Nat.mul_le_mul_left _ (by omega)
      omega
    have hidx : ∀ i, i < cs.length →
        colIndex o.direction (ceilDivNat cs.length cs.length) cs.length i < cs.length := by
      intro i hi
      rw [hnl1', colIndex_one_line o.direction cs.length i hi]
      exact hi
    have hcov : ∀ j, j < cs.length → ∃ i, i < cs.length ∧
        colIndex o.direction (ceilDivNat cs.length cs.length) cs.length i = j := by
      intro j hj
      exact ⟨j, hj, by rw [hnl1', colIndex_one_line o.direction cs.length j hj]⟩
    have hto := fitsWidth_imp_le_tmcc o cs mw cs.length hne (by omega) (Nat.le_refl _)
      hD hidx hcov hfit'
    have hleF : cs.length ≤ (mw - (Grid.build o cs).widest_cell_width) /
        ((Grid.build o cs).narrowest_cell_width + o.filling.width) + 1 := by
      have h := hto
      rw [build_tmccVal] at h
      exact Nat.le_trans h (Nat.min_le_left _ _)
    refine ⟨cs.length, hn2, hto,
      (fitsWidth_iff_scan o cs mw cs.length (by omega) hleF hD).mp hfit', ?_⟩
    rw [hnl1, hnl1']

/-! ### Decomposing width_dimensions and fit_into_width -/

lemma fit_into_width_decomp (g : Grid) (mw : Nat) (disp : Display)
    (h : g.fit_into_width mw = some (some disp)) :
    g.width_dimensions mw = some (some disp.dimensions) ∧ disp.grid = g := by
  rw [Grid.fit_into_width] at h
  cases hwd : g.width_dimensions mw with
  | none => rw [hwd] at h; simp at h
  | some od =>
    cases od with
    | none => rw [hwd] at h; simp at h
    | some dims =>
      rw [hwd] at h
      simp only [Option.map_some'] at h
      injection h with h1
      injection h1 with h2
      rw [← h2]
      exact ⟨rfl, rfl⟩

lemma fit_into_width_of_wd (g : Grid) (mw : Nat) (d : Dimensions)
    (h : g.width_dimensions mw = some (some d)) :
    g.fit_into_width mw = some (some { grid := g, dimensions := d }) := by
  rw [Grid.fit_into_width, h]
  rfl

lemma theoretical_none (g : Grid) (mw : Nat)
    (hD : g.narrowest_cell_width + g.options.filling.width = 0) :
    g.theoretical_max_column_count mw = none := by
  simp only [Grid.theoretical_max_column_count]
  rw [if_pos hD]

lemma build_widest_nil (o : GridOptions) : (Grid.build o []).widest_cell_width = 0 := by
  rw [build_widest]
  rfl

lemma width_dimensions_some_branches (o : GridOptions) (cs : List Cell) (mw : Nat)
    (d : Dimensions) (hn2 : 2 ≤ cs.length)
    (h : (Grid.build o cs).width_dimensions mw = some (some d)) :
    (Grid.build o cs).widest_cell_width ≤ mw ∧
    o.filling.width ≤ mw ∧
    0 < (Grid.build o cs).narrowest_cell_width + o.filling.width ∧
    d = (Grid.build o cs).scanColumns mw (tmccVal (Grid.build o cs) mw) := by
  rw [Grid.width_dimensions] at h
  by_cases hW : (Grid.build o cs).widest_cell_width > mw
  · rw [if_pos hW] at h
    simp at h
  rw [if_neg hW, if_neg (by rw [build_cell_count]; omega),
    if_neg (by rw [build_cell_count]; omega)] at h
  by_cases hfw : (Grid.build o cs).options.filling.width > mw
  · rw [if_pos hfw] at h
    simp at h
  rw [if_neg hfw] at h
  by_cases hD : (Grid.build o cs).narrowest_cell_width +
      (Grid.build o cs).options.filling.width = 0
  · rw [theoretical_none _ _ hD] at h
    simp at h
  · rw [theoretical_eq _ _ hD] at h
    simp only [] at h
    injection h with h1
    injection h1 with h2
    rw [build_options] at hfw hD
    exact ⟨by omega, by omega, by omega, h2.symm⟩

lemma width_dimensions_eq_scan (o : GridOptions) (cs : List Cell) (mw : Nat)
    (hn2 : 2 ≤ cs.length)
    (hW : (Grid.build o cs).widest_cell_width ≤ mw)
    (hfw : o.filling.width ≤ mw)
    (hD : 0 < (Grid.build o cs).narrowest_cell_width + o.filling.width) :
    (Grid.build o cs).width_dimensions mw =
      some (some ((Grid.build o cs).scanColumns mw (tmccVal (Grid.build o cs) mw))) := by
  rw [Grid.width_dimensions]
  rw [if_neg (by omega), if_neg (by rw [build_cell_count]; omega),
    if_neg (by rw [build_cell_count]; omega),
    if_neg (by rw [build_options]; omega),
    theoretical_eq _ _ (by rw [build_options]; omega)]

/-- Claim C1 (corrected), amended part: for every built grid with at
least one cell, whenever fit_into_width returns a layout d, (i) d uses
the fewest rows: for every column count nc >= 1 whose fixed-column
layout fits strictly within maximum_width, d.num_lines is at most the
ceiling of count / nc; and (ii) among fitting column counts that do not
exceed theoretical_max_column_count, the largest is chosen: any such nc
is at most the chosen column count, the length of d.widths.  (The
original claim's stronger conjunct, that the largest fitting column
count overall is chosen, is refuted by the counterexample
largest_fitting_column_count_not_chosen: above the theoretical bound a
TopToBottom layout with empty trailing columns can still fit.) -/
theorem fewest_rows_guarantee (o : GridOptions) (cs : List Cell) (mw : Nat)
    (d : Dimensions) (hne : cs ≠ [])
    (h : (Grid.build o cs).width_dimensions mw = some (some d)) :
    ∀ nc, 1 ≤ nc → fitsWidth (Grid.build o cs) mw nc →
      (d.num_lines ≤ ceilDivNat cs.length nc ∧
       (∀ m, (Grid.build o cs).theoretical_max_column_count mw = some m →
         2 ≤ nc → nc ≤ m → nc ≤ d.widths.length)) := by
  intro nc hnc1 hfit
  rcases Nat.lt_or_ge cs.length 2 with hn1 | hn2
  · -- exactly one cell
    have hlen0 : cs.length ≠ 0 := by
      intro hc
      exact hne (List.length_eq_zero.mp hc)
    have hlen : cs.length = 1 := by omega
    obtain ⟨c, hc⟩ : ∃ c, cs = [c] := by
      cases cs with
      | nil => exact absurd rfl hne
      | cons c cs' =>
        cases cs' with
        | nil => exact ⟨c, rfl⟩
        | cons c' cs'' => simp at hlen
    subst hc
    constructor
    · -- rows: d.num_lines = 1 and the ceiling is 1
      rw [Grid.width_dimensions] at h
      by_cases hW : (Grid.build o [c]).widest_cell_width > mw
      · rw [if_pos hW] at h
        simp at h
      rw [if_neg hW, if_neg (by rw [build_cell_count]; simp),
        if_pos (by rw [build_cell_count]; simp)] at h
      rw [build_cells] at h
      simp only [List.head?] at h
      injection h with h1
      injection h1 with h2
      rw [← h2]
      have hcd : ceilDivNat (List.length [c]) nc = 1 :=
        ceilDivNat_of_le (by simp) (by simpa using hnc1)
      rw [hcd]
    · intro m hm h2nc hncm
      by_cases hD : (Grid.build o [c]).narrowest_cell_width +
          (Grid.build o [c]).options.filling.width = 0
      · rw [theoretical_none _ _ hD] at hm
        simp at hm
      · rw [theoretical_eq _ _ hD] at hm
        injection hm with hm1
        have hlem : m ≤ 1 := by
          rw [← hm1, tmccVal, build_cell_count]
          simpa using Nat.min_le_right _ _
        omega
  · obtain ⟨hW, hfw, hD, hd⟩ := width_dimensions_some_branches o cs mw d hn2 h
    constructor
    · rcases Nat.lt_or_ge nc 2 with hlt | h2
      · have hnc1' : nc = 1 := by omega
        subst hnc1'
        rw [ceilDivNat_one, hd]
        have hle := scanColumns_num_lines_le (Grid.build o cs) mw
          (tmccVal (Grid.build o cs) mw)
        rw [build_cells] at hle
        exact hle
      · obtain ⟨nc', h2', hto', hscan', hrows'⟩ := fits_reduce o cs mw nc hn2 h2 hD hfit
        have hmin := scanColumns_min_rows (Grid.build o cs) mw
          (tmccVal (Grid.build o cs) mw) nc' h2' hto' hscan'
        rw [build_cells] at hmin
        rw [hd]
        exact Nat.le_trans hmin hrows'
    · intro m hm h2nc hncm
      have hmval : m = tmccVal (Grid.build o cs) mw := by
        rw [theoretical_eq _ _ (by rw [build_options]; omega)] at hm
        injection hm with hm1
        exact hm1.symm
      have hleF : nc ≤ (mw - (Grid.build o cs).widest_cell_width) /
          ((Grid.build o cs).narrowest_cell_width + o.filling.width) + 1 := by
        have h1 : nc ≤ tmccVal (Grid.build o cs) mw := by rw [← hmval]; exact hncm
        rw [build_tmccVal] at h1
        exact Nat.le_trans h1 (Nat.min_le_left _ _)
      have hscan := (fitsWidth_iff_scan o cs mw nc (by omega) hleF hD).mp hfit
      have hlarge := scanColumns_largest (Grid.build o cs) mw
        (tmccVal (Grid.build o cs) mw) nc h2nc (by rw [← hmval]; exact hncm) hscan
      rw [hd]
      exact hlarge

theorem fewest_rows_guarantee_witness :
    (Dimensions.mk 1 [1, 1, 1, 1]).num_lines ≤
      ceilDivNat (List.length ([⟨"t", 1, Alignment.Left⟩, ⟨"u", 1, Alignment.Left⟩,
        ⟨"v", 1, Alignment.Left⟩, ⟨"w", 1, Alignment.Left⟩] : List Cell)) 2 ∧
    (2 : Nat) ≤ (Dimensions.mk 1 [1, 1, 1, 1]).widths.length := by
  have h := fewest_rows_guarantee
    { direction := Direction.LeftToRight, filling := Filling.Spaces 1 }
    [⟨"t", 1, Alignment.Left⟩, ⟨"u", 1, Alignment.Left⟩,
     ⟨"v", 1, Alignment.Left⟩, ⟨"w", 1, Alignment.Left⟩]
    10 (Dimensions.mk 1 [1, 1, 1, 1]) (by decide) (by decide) 2 (by decide) (by decide)
  exact ⟨h.1, h.2 4 (by decide) (by decide) (by decide)⟩

/-- Claim C3 (corrected), amended part: for every built grid and every
maximum_width, whenever fit_into_width returns a layout, the layout's
total rendered width (Display::width: the column widths plus the
separator width times the number of columns minus one) is at most
maximum_width.  The original strict inequality holds for layouts chosen
by the scan but fails on the empty, single-cell and single-column
fallback paths, which only guarantee widest <= maximum_width, as the
counterexample fitted_width_not_strictly_less_counterexample shows. -/
theorem fitted_width_le_maximum (o : GridOptions) (cs : List Cell) (mw : Nat)
    (disp : Display)
    (h : (Grid.build o cs).fit_into_width mw = some (some disp)) :
    disp.width ≤ mw := by
  obtain ⟨hwd, hgr⟩ := fit_into_width_decomp _ _ _ h
  rw [Display.width, hgr, build_options]
  rcases Nat.lt_or_ge cs.length 1 with h0 | h1
  · -- empty grid: the dimensions are 0 lines, no columns
    have hcs : cs = [] := List.length_eq_zero.mp (by omega)
    subst hcs
    rw [Grid.width_dimensions, if_neg (by rw [build_widest_nil]; omega),
      if_pos (by rw [build_cell_count]; rfl)] at hwd
    injection hwd with h1
    injection h1 with h2
    rw [← h2, Dimensions.total_width]
    simp
  rcases Nat.lt_or_ge cs.length 2 with h1' | h2
  · -- a single cell: the dimensions are one line, one column of its width
    have hlen : cs.length = 1 := by omega
    obtain ⟨c, hc⟩ : ∃ c, cs = [c] := by
      cases cs with
      | nil => simp at hlen
      | cons c cs' =>
        cases cs' with
        | nil => exact ⟨c, rfl⟩
        | cons c' cs'' => simp at hlen
    subst hc
    rw [Grid.width_dimensions] at hwd
    by_cases hW : (Grid.build o [c]).widest_cell_width > mw
    · rw [if_pos hW] at hwd
      simp at hwd
    rw [if_neg hW, if_neg (by rw [build_cell_count]; simp),
      if_pos (by rw [build_cell_count]; simp)] at hwd
    rw [build_cells] at hwd
    simp only [List.head?] at hwd
    injection hwd with h1
    injection h1 with h2
    rw [← h2, Dimensions.total_width]
    have hcw : c.width ≤ (Grid.build o [c]).widest_cell_width :=
      width_le_widest (by simp)
    simp
    omega
  · obtain ⟨hW, hfw, hD, hd⟩ := width_dimensions_some_branches o cs mw
      disp.dimensions h2 hwd
    rcases scanColumns_cases (Grid.build o cs) mw (tmccVal (Grid.build o cs) mw) with
      hcase | ⟨j, hj2, hjle, hjfit, heq⟩
    · -- single-column fallback: the one column is as wide as the widest cell
      rw [hd, hcase, total_width_eq _ 1 (by omega), build_sum_widths,
        Finset.sum_range_one]
      have hcm : colMaxFrom o.direction (ceilDivNat cs.length 1) 1 cs 0 0 ≤
          (Grid.build o cs).widest_cell_width :=
        colMaxFrom_le _ _ _ _ cs 0 0 (fun c hc => width_le_widest hc)
      simp
      omega
    · -- a scanned column count: its criterion gives strict fit
      rw [hd, heq]
      have hleF : j ≤ (mw - (Grid.build o cs).widest_cell_width) /
          ((Grid.build o cs).narrowest_cell_width + o.filling.width) + 1 := by
        have h1 := hjle
        rw [build_tmccVal] at h1
        exact Nat.le_trans h1 (Nat.min_le_left _ _)
      have hfits := (fitsWidth_iff_scan o cs mw j (by omega) hleF hD).mpr hjfit
      unfold fitsWidth at hfits
      rw [build_options] at hfits
      exact Nat.le_of_lt hfits

theorem fitted_width_le_maximum_witness :
    Display.width
      { grid := Grid.build { direction := Direction.LeftToRight, filling := Filling.Spaces 1 }
          [⟨"ab", 2, Alignment.Left⟩],
        dimensions := { num_lines := 1, widths := [2] } } ≤ 5 :=
  fitted_width_le_maximum
    { direction := Direction.LeftToRight, filling := Filling.Spaces 1 }
    [⟨"ab", 2, Alignment.Left⟩] 5
    { grid := Grid.build { direction := Direction.LeftToRight, filling := Filling.Spaces 1 }
        [⟨"ab", 2, Alignment.Left⟩],
      dimensions := { num_lines := 1, widths := [2] } }
    (by decide)

/-- Claim C7 (confirmed): for a fixed built grid and budgets m <= m', if
fit_into_width(m) returns a layout then fit_into_width(m') panics on no
division (not none), does not signal absence (not some none), and every
layout it returns has row_count at most the row_count of the layout for
m: increasing the width budget never loses the layout and never
increases the number of rows. -/
theorem row_count_monotone (o : GridOptions) (cs : List Cell) (m m' : Nat)
    (disp : Display) (hmm : m ≤ m')
    (h : (Grid.build o cs).fit_into_width m = some (some disp)) :
    (Grid.build o cs).fit_into_width m' ≠ none ∧
    (Grid.build o cs).fit_into_width m' ≠ some none ∧
    ∀ disp', (Grid.build o cs).fit_into_width m' = some (some disp') →
      disp'.row_count ≤ disp.row_count := by
  obtain ⟨hwd, hgr⟩ := fit_into_width_decomp _ _ _ h
  suffices hs : ∃ d', (Grid.build o cs).width_dimensions m' = some (some d') ∧
      d'.num_lines ≤ disp.dimensions.num_lines by
    obtain ⟨d', hwd', hle⟩ := hs
    have hfit' := fit_into_width_of_wd _ _ _ hwd'
    refine ⟨by rw [hfit']; simp, by rw [hfit']; simp, ?_⟩
    intro disp'' heq
    rw [hfit'] at heq
    injection heq with e1
    injection e1 with e2
    have hdim : disp''.dimensions = d' := by rw [← e2]
    rw [Display.row_count, Display.row_count, hdim]
    exact hle
  rcases Nat.lt_or_ge cs.length 1 with h0 | h1
  · -- empty grid: both budgets yield the empty layout
    have hcs : cs = [] := List.length_eq_zero.mp (by omega)
    subst hcs
    have hwd0 : ∀ k, (Grid.build o ([] : List Cell)).width_dimensions k =
        some (some ⟨0, []⟩) := by
      intro k
      rw [Grid.width_dimensions, if_neg (by rw [build_widest_nil]; omega),
        if_pos (by rw [build_cell_count]; rfl)]
    have hdm : (⟨0, []⟩ : Dimensions) = disp.dimensions := by
      have hm := hwd0 m
      rw [hm] at hwd
      exact Option.some.inj (Option.some.inj hwd)
    exact ⟨⟨0, []⟩, hwd0 m', by rw [← hdm]⟩
  rcases Nat.lt_or_ge cs.length 2 with h1' | h2
  · -- one cell: both budgets yield the one-line layout
    have hlen : cs.length = 1 := by omega
    obtain ⟨c, hc⟩ : ∃ c, cs = [c] := by
      cases cs with
      | nil => simp at hlen
      | cons c cs' =>
        cases cs' with
        | nil => exact ⟨c, rfl⟩
        | cons c' cs'' => simp at hlen
    subst hc
    rw [Grid.width_dimensions] at hwd
    by_cases hW : (Grid.build o [c]).widest_cell_width > m
    · rw [if_pos hW] at hwd
      simp at hwd
    rw [if_neg hW, if_neg (by rw [build_cell_count]; simp),
      if_pos (by rw [build_cell_count]; simp)] at hwd
    rw [build_cells] at hwd
    simp only [List.head?] at hwd
    injection hwd with e1
    injection e1 with e2
    refine ⟨⟨1, [c.width]⟩, ?_, by rw [← e2]⟩
    rw [Grid.width_dimensions, if_neg (by omega),
      if_neg (by rw [build_cell_count]; simp),
      if_pos (by rw [build_cell_count]; simp), build_cells]
    rfl
  · -- at least two cells: compare the two scans
    obtain ⟨hW, hfw, hD, hd⟩ := width_dimensions_some_branches o cs m disp.dimensions h2 hwd
    have hwd' := width_dimensions_eq_scan o cs m' h2 (Nat.le_trans hW hmm)
      (Nat.le_trans hfw hmm) hD
    refine ⟨_, hwd', ?_⟩
    rcases scanColumns_cases (Grid.build o cs) m (tmccVal (Grid.build o cs) m) with
      hcase | ⟨j, hj2, hjle, hjfit, heq⟩
    · rw [hd, hcase, columnsDimensionsPos_num_lines, ceilDivNat_one]
      exact scanColumns_num_lines_le _ _ _
    · have hjfit' : fitScanSum (Grid.build o cs) m' j := by
        unfold fitScanSum at hjfit ⊢
        omega
      have hjle' : j ≤ tmccVal (Grid.build o cs) m' :=
        Nat.le_trans hjle (tmccVal_mono _ hmm)
      have hmin := scanColumns_min_rows (Grid.build o cs) m'
        (tmccVal (Grid.build o cs) m') j hj2 hjle' hjfit'
      rw [hd, heq, columnsDimensionsPos_num_lines]
      exact hmin

theorem row_count_monotone_witness :
    Display.row_count
      { grid := Grid.build { direction := Direction.LeftToRight, filling := Filling.Spaces 1 }
          [⟨"e", 1, Alignment.Left⟩, ⟨"f", 1, Alignment.Left⟩,
           ⟨"g", 1, Alignment.Left⟩, ⟨"h", 1, Alignment.Left⟩],
        dimensions := { num_lines := 1, widths := [1, 1, 1, 1] } } ≤
    Display.row_count
      { grid := Grid.build { direction := Direction.LeftToRight, filling := Filling.Spaces 1 }
          [⟨"e", 1, Alignment.Left⟩, ⟨"f", 1, Alignment.Left⟩,
           ⟨"g", 1, Alignment.Left⟩, ⟨"h", 1, Alignment.Left⟩],
        dimensions := { num_lines := 2, widths := [1, 1] } } := by
  have h := row_count_monotone
    { direction := Direction.LeftToRight, filling := Filling.Spaces 1 }
    [⟨"e", 1, Alignment.Left⟩, ⟨"f", 1, Alignment.Left⟩,
     ⟨"g", 1, Alignment.Left⟩, ⟨"h", 1, Alignment.Left⟩]
    4 10
    { grid := Grid.build { direction := Direction.LeftToRight, filling := Filling.Spaces 1 }
        [⟨"e", 1, Alignment.Left⟩, ⟨"f", 1, Alignment.Left⟩,
         ⟨"g", 1, Alignment.Left⟩, ⟨"h", 1, Alignment.Left⟩],
      dimensions := { num_lines := 2, widths := [1, 1] } }
    (by decide) (by decide)
  exact h.2.2 _ (by decide)

end TermGrid
